import Mathlib

/-!
Shallow embedding of the porter provisioner redis stream package
(provisioner/integrations/redis_stream/operation.go): producers that append
operation state updates and log lines to per-operation Redis streams, and
consumers that tail those streams, decoding entries and delivering them to a
caller-supplied sink.
-/

/-- Errors are opaque values in Go; we model an error by its message string. -/
abbrev Err := String

/-- JSON documents, modelling the values handled by the external
encoding/json library (json.Marshal and json.Unmarshal). -/
inductive JVal where
  | null : JVal
  | jbool : Bool → JVal
  | jnum : Int → JVal
  | jstr : String → JVal
  | jarr : List JVal → JVal
  | jobj : List (String × JVal) → JVal

/-- A Go string as stored in a Redis stream field, tagged by whether it is
valid JSON text: json j stands for the JSON text of document j, raw s for a
string s that is not valid JSON text. Only the state-stream decode path
(json.Unmarshal) consults the tag; the log path treats both alike. -/
inductive JStr where
  | raw : String → JStr
  | json : JVal → JStr

/-- A dynamically typed value held in a stream entry field, as returned by
the Redis client in a Values map: either a string, or some non-string value
for which the type assertion to string in the consumer fails. -/
inductive GoVal where
  | str : JStr → GoVal
  | nonString : GoVal

/-- One Redis stream entry: an entry ID (Redis IDs of the form ms-seq are
totally ordered and strictly increasing within a stream; we model them by
naturals, with the initial cursor 0-0 modelled as 0 and auto-assigned IDs
being at least 1) and the field map of the entry. -/
structure Entry where
  id : Nat
  values : List (String × GoVal)

/-- Association-list lookup, modelling Go map indexing. -/
def assocFind {α : Type} : List (String × α) → String → Option α
  | [], _ => none
  | (k, v) :: rest, key => if k = key then some v else assocFind rest key

/-- The state of the Redis store: its streams (name to entries, in append
order), the next auto-assigned entry ID (XAdd with ID star), and an optional
transport fault: when appendErr is set, every append fails with that error,
modelling store or network unavailability. -/
structure Redis where
  streams : List (String × List Entry)
  nextID : Nat
  appendErr : Option Err

def emptyRedis : Redis := ⟨[], 1, none⟩

/-- The entries of a named stream; a stream not yet appended to is empty
(streams are implicitly created on first append). -/
def Redis.stream (r : Redis) (name : String) : List Entry :=
  (assocFind r.streams name).getD []

/-- Append one entry at the tail of the named stream, creating the stream
if it does not exist yet. -/
def insertEntry : List (String × List Entry) → String → Entry → List (String × List Entry)
  | [], name, e => [(name, [e])]
  | (n, es) :: rest, name, e =>
    if n = name then (n, es ++ [e]) :: rest else (n, es) :: insertEntry rest name e

/-- XAdd with ID star: appends an entry carrying the given field values
under the next auto-assigned ID, or fails with the transport fault. -/
def xadd (r : Redis) (stream : String) (values : List (String × GoVal)) :
    Except Err (Redis × Nat) :=
  match r.appendErr with
  | some e => .error e
  | none =>
    .ok (⟨insertEntry r.streams stream ⟨r.nextID, values⟩, r.nextID + 1, none⟩, r.nextID)

/-- The entries one XRead returns for a stream when asked for entries after
the cursor lastID: all entries with strictly greater ID. When this list is
empty, XRead with Block 0 does not return but keeps blocking. -/
def xreadSince (entries : List Entry) (lastID : Nat) : List Entry :=
  entries.filter (fun e => lastID < e.id)

/-- Modelled from the spec: models.Infra is not among the provided sources;
the spec only requires that infrastructure identity (ID and suffix) feeds
the deterministic workspace identifier derivation. -/
structure Infra where
  id : Nat
  suffix : String

/-- Modelled from the spec: models.Operation is not among the provided
sources; the spec only requires an operation identifier. -/
structure Operation where
  uid : String

/-- Modelled from the spec: models.GetWorkspaceID is not among the provided
sources; the spec requires a deterministic, collision-free derivation of an
opaque workspace identifier string from infrastructure plus operation
identity. -/
def GetWorkspaceID (infra : Infra) (operation : Operation) : String :=
  toString infra.id ++ "-" ++ infra.suffix ++ "-" ++ operation.uid

/-- Modelled from the spec: the opaque JSON state blob inside a state
record; json.Marshal may fail on values it cannot encode, which we model
with the unencodable constructor carrying the error Marshal would return. -/
inductive StateBlob where
  | jval : JVal → StateBlob
  | unencodable : Err → StateBlob

/-- The JSON document of an encodable blob (null for the unencodable case,
which never reaches an encoder). -/
def StateBlob.jOf : StateBlob → JVal
  | .jval j => j
  | .unencodable _ => .null

/-- Modelled from the spec: types.TFResourceState is not among the provided
sources; the spec data model gives a state-update record holding a resource
identifier and an opaque JSON state blob. -/
structure TFResourceState where
  resource_id : String
  state : StateBlob

/-- Modelled from the spec: types.TFResourceStateEntry is not among the
provided sources; per the source of PushToOperationStream it embeds the
resource state and adds the capture timestamp (PushedAt, time.Now at push),
which the spec data model calls pushed_at. -/
structure TFResourceStateEntry where
  tfResourceState : TFResourceState
  pushedAt : Nat

/-- Modelled from the spec: types.TFLogLine is not among the provided
sources; its fields as used by getLogString are Level, Timestamp, Message
and Diagnostic.Detail (the spec's optional detail). -/
structure Diagnostic where
  detail : String

structure TFLogLine where
  level : String
  timestamp : String
  message : String
  diagnostic : Diagnostic

/-- json.Marshal on a TFResourceStateEntry: an object holding the embedded
record fields inline plus pushed_at; fails exactly when the opaque blob is
unencodable. -/
def marshalStateEntry (e : TFResourceStateEntry) : Except Err JVal :=
  match e.tfResourceState.state with
  | .unencodable err => .error err
  | .jval j =>
    .ok (.jobj [("resource_id", .jstr e.tfResourceState.resource_id),
                ("state", j),
                ("pushed_at", .jnum e.pushedAt)])

/-- json.Unmarshal of a JSON document into a fresh (zero-valued)
TFResourceState: null leaves the zero value, an object fills matching
fields (unknown keys ignored, absent fields left zero, a non-string
resource_id is a type error), any other document is a type error. -/
def unmarshalTFResourceState (j : JVal) : Option TFResourceState :=
  match j with
  | .null => some ⟨"", .jval .null⟩
  | .jobj fields =>
    let st : StateBlob :=
      match assocFind fields "state" with
      | some v => .jval v
      | none => .jval .null
    match assocFind fields "resource_id" with
    | some (.jstr s) => some ⟨s, st⟩
    | some _ => none
    | none => some ⟨"", st⟩
  | _ => none

def getStateStreamName (infra : Infra) (operation : Operation) : String :=
  GetWorkspaceID infra operation ++ "-state"

def getLogsStreamName (infra : Infra) (operation : Operation) : String :=
  GetWorkspaceID infra operation ++ "-logs"

def getLogsFileName (infra : Infra) (operation : Operation) : String :=
  GetWorkspaceID infra operation ++ "-logs.txt"

/-- PushToOperationStream: wraps the state record with the capture time
(now models time.Now()), marshals the wrapper, and appends it to the state
stream under field id (the workspace identifier) and field data (the JSON
bytes); any marshal or append error is returned to the caller as is. -/
def PushToOperationStream (r : Redis) (infra : Infra) (operation : Operation)
    (data : TFResourceState) (now : Nat) : Except Err Redis :=
  let streamName := getStateStreamName infra operation
  let pushData : TFResourceStateEntry := ⟨data, now⟩
  match marshalStateEntry pushData with
  | .error e => .error e
  | .ok dataBytes =>
    match xadd r streamName
        [("id", .str (.raw (GetWorkspaceID infra operation))),
         ("data", .str (.json dataBytes))] with
    | .error e => .error e
    | .ok (r2, _) => .ok r2

/-- SendOperationCompleted: appends the completion marker, a record whose
payload is the object with single field status set to OPERATION_COMPLETED,
to the state stream; json.Marshal of this concrete map cannot fail. -/
def SendOperationCompleted (r : Redis) (infra : Infra) (operation : Operation) :
    Except Err Redis :=
  let streamName := getStateStreamName infra operation
  let dataBytes : JVal := .jobj [("status", .jstr "OPERATION_COMPLETED")]
  match xadd r streamName
      [("id", .str (.raw (GetWorkspaceID infra operation))),
       ("data", .str (.json dataBytes))] with
  | .error e => .error e
  | .ok (r2, _) => .ok r2

/-- getLogString: formats a log record into one display line, with a detail
suffix when the detail field is non-empty; note the trailing newline. -/
def getLogString (data : TFLogLine) : String :=
  if data.diagnostic.detail ≠ "" then
    "[" ++ data.level ++ "] [" ++ data.timestamp ++ "] " ++ data.message
      ++ ": " ++ data.diagnostic.detail ++ "\n"
  else
    "[" ++ data.level ++ "] [" ++ data.timestamp ++ "] " ++ data.message ++ "\n"

/-- PushToLogStream: appends the formatted line to the logs stream under
field log; any append error is returned to the caller as is. -/
def PushToLogStream (r : Redis) (infra : Infra) (operation : Operation)
    (data : TFLogLine) : Except Err Redis :=
  let streamName := getLogsStreamName infra operation
  match xadd r streamName [("log", .str (.raw (getLogString data)))] with
  | .error e => .error e
  | .ok (r2, _) => .ok r2

abbrev LogWriter := JStr → Except Err Unit

abbrev StateUpdateWriter := TFResourceState → Except Err Unit

/-- What one XRead call produces when it unblocks: an error (a transport
fault, or the context error when cancellation interrupts the block), or a
list of per-stream result batches (the consumers index batch zero). -/
inductive ReadOutcome where
  | err : Err → ReadOutcome
  | ok : List (List Entry) → ReadOutcome

/-- The environment of one loop iteration of a tail: what XRead returns,
as a function of the stream name and cursor it was called with, when it
unblocks this time, and whether the context is already cancelled when the
loop reaches its select on ctx.Done() after processing the batch. -/
structure TailStep where
  read : String → Nat → ReadOutcome
  ctxDone : Bool

/-- How a tail run ended: ret none models a nil return (the clean exit in
the select on ctx.Done()), ret (some e) an error return; panicked models a
Go runtime panic from an out-of-range index; running means the environment
trace was exhausted while the loop was still going. -/
inductive TailOutcome where
  | ret : Option Err → TailOutcome
  | panicked : TailOutcome
  | running : TailOutcome
deriving DecidableEq

/-- The inner per-batch loop shared by both consumers: decode each message
in order (a decode failure skips the message, continue), hand each decoded
value to the sink, and abort on the first sink error. Returns the values
the sink accepted, in order, together with the sink error if any. -/
def processMsgs {α : Type} (dec : Entry → Option α) (send : α → Except Err Unit) :
    List Entry → List α × Option Err
  | [] => ([], none)
  | msg :: rest =>
    match dec msg with
    | none => processMsgs dec send rest
    | some a =>
      match send a with
      | .error e => ([], some e)
      | .ok _ =>
        let (s, r) := processMsgs dec send rest
        (a :: s, r)

/-- The blocking-read loop skeleton shared by StreamOperationLogs and
StreamStateUpdate: read after the cursor (an error returns it to the
caller), index the first stream batch and the last message of that batch
without bounds checks (panicking when a read yields no batch or an empty
batch), advance the cursor to the last message ID, process the batch, and
check the context once per batch boundary, returning nil when cancelled. -/
def runTail {α : Type} (streamName : String) (dec : Entry → Option α)
    (send : α → Except Err Unit) : List TailStep → Nat → List α × TailOutcome
  | [], _ => ([], .running)
  | step :: rest, lastID =>
    match step.read streamName lastID with
    | .err e => ([], .ret (some e))
    | .ok [] => ([], .panicked)
    | .ok (messages :: _) =>
      match messages.getLast? with
      | none => ([], .panicked)
      | some lastMsg =>
        match processMsgs dec send messages with
        | (sent, some e) => (sent, .ret (some e))
        | (sent, none) =>
          if step.ctxDone then (sent, .ret none)
          else
            let (sent2, out) := runTail streamName dec send rest lastMsg.id
            (sent ++ sent2, out)

/-- Per-entry decode on the logs stream: field log must exist and hold a
string; the string is delivered as is. -/
def decodeLogEntry (msg : Entry) : Option JStr :=
  match assocFind msg.values "log" with
  | none => none
  | some .nonString => none
  | some (.str s) => some s

/-- Per-entry decode on the state stream: field data must exist, hold a
string, and that string must unmarshal into a TFResourceState. -/
def decodeStateEntry (msg : Entry) : Option TFResourceState :=
  match assocFind msg.values "data" with
  | none => none
  | some .nonString => none
  | some (.str (.raw _)) => none
  | some (.str (.json j)) => unmarshalTFResourceState j

/-- StreamOperationLogs: tail the logs stream of the operation from the
beginning (the cursor starts at 0-0), delivering log lines to the sink. -/
def StreamOperationLogs (env : List TailStep) (infra : Infra) (operation : Operation)
    (send : LogWriter) : List JStr × TailOutcome :=
  runTail (getLogsStreamName infra operation) decodeLogEntry send env 0

/-- StreamStateUpdate: tail the state stream of the operation from the
beginning (the cursor starts at 0-0), delivering decoded state records to
the sink. -/
def StreamStateUpdate (env : List TailStep) (infra : Infra) (operation : Operation)
    (send : StateUpdateWriter) : List TFResourceState × TailOutcome :=
  runTail (getStateStreamName infra operation) decodeStateEntry send env 0

/-- A sink that accepts every record. -/
def okSink {α : Type} : α → Except Err Unit := fun _ => .ok ()

/-- Perform a sequence of state pushes (each paired with its capture time),
stopping at the first failing push. -/
def pushAllStates (infra : Infra) (operation : Operation) :
    Redis → List (TFResourceState × Nat) → Except Err Redis
  | r, [] => .ok r
  | r, (d, t) :: rest =>
    match PushToOperationStream r infra operation d t with
    | .error e => .error e
    | .ok r2 => pushAllStates infra operation r2 rest

/-- A read outcome that the unguarded indexing in the tail loops can
consume without going out of bounds: any error, or a result with at least
one batch whose first batch holds at least one message. -/
def ReadOutcome.wellFormed : ReadOutcome → Bool
  | .err _ => true
  | .ok [] => false
  | .ok (messages :: _) => !messages.isEmpty

/-- The field values PushToOperationStream appends for a successful push of
record d at time t, with j the JSON document of the encodable blob of d. -/
def stateValues (infra : Infra) (operation : Operation) (d : TFResourceState)
    (t : Nat) (j : JVal) : List (String × GoVal) :=
  [("id", .str (.raw (GetWorkspaceID infra operation))),
   ("data", .str (.json (.jobj [("resource_id", .jstr d.resource_id),
                                ("state", j),
                                ("pushed_at", .jnum t)])))]

/-- The field values SendOperationCompleted appends for the completion
marker. -/
def markerValues (infra : Infra) (operation : Operation) : List (String × GoVal) :=
  [("id", .str (.raw (GetWorkspaceID infra operation))),
   ("data", .str (.json (.jobj [("status", .jstr "OPERATION_COMPLETED")])))]

/-- The entries a successful sequence of state pushes appends to the state
stream, with auto IDs counting up from n. -/
def builtEntries (infra : Infra) (operation : Operation) :
    List (TFResourceState × Nat) → Nat → List Entry
  | [], _ => []
  | (d, t) :: rest, n =>
    ⟨n, stateValues infra operation d t d.state.jOf⟩ :: builtEntries infra operation rest (n + 1)

theorem stream_insertEntry_same (m : List (String × List Entry)) (name : String) (e : Entry) :
    (assocFind (insertEntry m name e) name).getD [] = (assocFind m name).getD [] ++ [e] := by
  induction m with
  | nil => simp [insertEntry, assocFind]
  | cons hd tl ih =>
    obtain ⟨n, es⟩ := hd
    by_cases h : n = name
    · simp [insertEntry, assocFind, h]
    · simp [insertEntry, assocFind, h, ih]

theorem stream_insertEntry_other (m : List (String × List Entry)) (name other : String)
    (e : Entry) (h : other ≠ name) :
    assocFind (insertEntry m name e) other = assocFind m other := by
  induction m with
  | nil => simp [insertEntry, assocFind, Ne.symm h]
  | cons hd tl ih =>
    obtain ⟨n, es⟩ := hd
    by_cases hn : n = name
    · subst hn; simp [insertEntry, assocFind, Ne.symm h]
    · simp [insertEntry, assocFind, hn, ih]

theorem xreadSince_zero (es : List Entry) (h : ∀ e ∈ es, 1 ≤ e.id) :
    xreadSince es 0 = es := by
  unfold xreadSince
  apply List.filter_eq_self.mpr
  intro e he
  simp only [decide_eq_true_eq]
  exact h e he

theorem decodeStateEntry_stateValues (i : Infra) (o : Operation) (d : TFResourceState)
    (t n : Nat) (j : JVal) (hj : d.state = .jval j) :
    decodeStateEntry ⟨n, stateValues i o d t j⟩ = some d := by
  show some ⟨d.resource_id, StateBlob.jval j⟩ = some d
  rw [← hj]

theorem decodeStateEntry_marker (i : Infra) (o : Operation) (n : Nat) :
    decodeStateEntry ⟨n, markerValues i o⟩ = some ⟨"", .jval .null⟩ := rfl

theorem processMsgs_ok_sink {α : Type} (dec : Entry → Option α) (send : α → Except Err Unit)
    (hsend : ∀ a, send a = .ok ()) (msgs : List Entry) :
    processMsgs dec send msgs = (msgs.filterMap dec, none) := by
  induction msgs with
  | nil => rfl
  | cons m rest ih =>
    cases hd : dec m with
    | none => simp only [processMsgs, hd, List.filterMap_cons]; exact ih
    | some a => simp only [processMsgs, hd, hsend a, List.filterMap_cons, ih]

theorem processMsgs_cons_none {α : Type} (dec : Entry → Option α) (send : α → Except Err Unit)
    (m : Entry) (rest : List Entry) (hd : dec m = none) :
    processMsgs dec send (m :: rest) = processMsgs dec send rest := by
  simp [processMsgs, hd]

theorem processMsgs_cons_sinkErr {α : Type} (dec : Entry → Option α) (send : α → Except Err Unit)
    (m : Entry) (rest : List Entry) (a : α) (e : Err)
    (hd : dec m = some a) (hs : send a = .error e) :
    processMsgs dec send (m :: rest) = ([], some e) := by
  simp [processMsgs, hd, hs]

theorem processMsgs_cons_sinkOk {α : Type} (dec : Entry → Option α) (send : α → Except Err Unit)
    (m : Entry) (rest : List Entry) (a : α)
    (hd : dec m = some a) (hs : send a = .ok ()) :
    processMsgs dec send (m :: rest)
      = (a :: (processMsgs dec send rest).1, (processMsgs dec send rest).2) := by
  simp [processMsgs, hd, hs]

theorem processMsgs_append {α : Type} (dec : Entry → Option α) (send : α → Except Err Unit)
    (a b : List Entry) (sa : List α) (ha : processMsgs dec send a = (sa, none)) :
    processMsgs dec send (a ++ b)
      = (sa ++ (processMsgs dec send b).1, (processMsgs dec send b).2) := by
  induction a generalizing sa with
  | nil =>
    simp only [processMsgs, Prod.mk.injEq] at ha
    obtain ⟨h1, -⟩ := ha
    subst h1
    simp
  | cons m rest ih =>
    rw [List.cons_append]
    cases hd : dec m with
    | none =>
      rw [processMsgs_cons_none dec send m rest hd] at ha
      rw [processMsgs_cons_none dec send m (rest ++ b) hd]
      exact ih sa ha
    | some x =>
      cases hs : send x with
      | error e =>
        rw [processMsgs_cons_sinkErr dec send m rest x e hd hs] at ha
        simp at ha
      | ok u =>
        cases u
        rw [processMsgs_cons_sinkOk dec send m rest x hd hs] at ha
        simp only [Prod.mk.injEq] at ha
        obtain ⟨h1, h2⟩ := ha
        subst h1
        rw [processMsgs_cons_sinkOk dec send m (rest ++ b) x hd hs]
        have hmid := ih (processMsgs dec send rest).1 (by rw [← h2])
        rw [hmid]
        simp

theorem pushToOperationStream_ok (r : Redis) (i : Infra) (o : Operation)
    (d : TFResourceState) (t : Nat) (j : JVal)
    (hj : d.state = .jval j) (he : r.appendErr = none) :
    PushToOperationStream r i o d t =
      .ok ⟨insertEntry r.streams (getStateStreamName i o) ⟨r.nextID, stateValues i o d t j⟩,
           r.nextID + 1, none⟩ := by
  simp [PushToOperationStream, marshalStateEntry, hj, xadd, he, stateValues]

theorem sendOperationCompleted_ok (r : Redis) (i : Infra) (o : Operation)
    (he : r.appendErr = none) :
    SendOperationCompleted r i o =
      .ok ⟨insertEntry r.streams (getStateStreamName i o) ⟨r.nextID, markerValues i o⟩,
           r.nextID + 1, none⟩ := by
  simp [SendOperationCompleted, xadd, he, markerValues]

theorem pushToLogStream_ok (r : Redis) (i : Infra) (o : Operation) (l : TFLogLine)
    (he : r.appendErr = none) :
    PushToLogStream r i o l =
      .ok ⟨insertEntry r.streams (getLogsStreamName i o)
             ⟨r.nextID, [("log", .str (.raw (getLogString l)))]⟩,
           r.nextID + 1, none⟩ := by
  simp [PushToLogStream, xadd, he]

theorem builtEntries_id_ge (i : Infra) (o : Operation) (ps : List (TFResourceState × Nat)) :
    ∀ n, ∀ e ∈ builtEntries i o ps n, n ≤ e.id := by
  induction ps with
  | nil => intro n e he; simp [builtEntries] at he
  | cons p rest ih =>
    intro n e he
    obtain ⟨d, t⟩ := p
    simp only [builtEntries] at he
    rcases List.mem_cons.mp he with rfl | he
    · exact Nat.le_refl n
    · exact Nat.le_of_succ_le (ih (n + 1) e he)

theorem builtEntries_ne_nil (i : Infra) (o : Operation) (d : TFResourceState) (t : Nat)
    (rest : List (TFResourceState × Nat)) (n : Nat) :
    builtEntries i o ((d, t) :: rest) n ≠ [] := by
  simp [builtEntries]

theorem pushAllStates_ok (i : Infra) (o : Operation) (ps : List (TFResourceState × Nat)) :
    ∀ (r r2 : Redis), r.appendErr = none → pushAllStates i o r ps = .ok r2 →
    r2.appendErr = none ∧
    r2.nextID = r.nextID + ps.length ∧
    r2.stream (getStateStreamName i o)
      = r.stream (getStateStreamName i o) ++ builtEntries i o ps r.nextID ∧
    (∀ name, name ≠ getStateStreamName i o → r2.stream name = r.stream name) := by
  induction ps with
  | nil =>
    intro r r2 he h
    simp only [pushAllStates] at h
    injection h with h
    subst h
    exact ⟨he, by simp, by simp [builtEntries], fun name _ => rfl⟩
  | cons p rest ih =>
    intro r r2 he h
    obtain ⟨d, t⟩ := p
    cases hb : d.state with
    | unencodable err =>
      rw [show pushAllStates i o r ((d, t) :: rest)
            = match PushToOperationStream r i o d t with
              | .error e => .error e
              | .ok r3 => pushAllStates i o r3 rest from rfl] at h
      rw [show PushToOperationStream r i o d t = .error err by
            simp [PushToOperationStream, marshalStateEntry, hb]] at h
      simp at h
    | jval j =>
      rw [show pushAllStates i o r ((d, t) :: rest)
            = match PushToOperationStream r i o d t with
              | .error e => .error e
              | .ok r3 => pushAllStates i o r3 rest from rfl] at h
      rw [pushToOperationStream_ok r i o d t j hb he] at h
      obtain ⟨h1, h2, h3, h4⟩ := ih _ r2 rfl h
      refine ⟨h1, ?_, ?_, ?_⟩
      · rw [h2]; simp only [List.length_cons]; omega
      · rw [h3]
        simp only [Redis.stream, builtEntries, hb, StateBlob.jOf]
        rw [stream_insertEntry_same]
        simp [Redis.stream]
      · intro name hn
        rw [h4 name hn]
        simp only [Redis.stream]
        rw [stream_insertEntry_other _ _ _ _ hn]

theorem pushAllStates_encodable (i : Infra) (o : Operation)
    (ps : List (TFResourceState × Nat)) :
    ∀ (r r2 : Redis), pushAllStates i o r ps = .ok r2 →
    ∀ p ∈ ps, ∃ j, (p.1).state = .jval j := by
  induction ps with
  | nil => intro r r2 _ p hp; simp at hp
  | cons q rest ih =>
    intro r r2 h p hp
    obtain ⟨d, t⟩ := q
    rw [show pushAllStates i o r ((d, t) :: rest)
          = match PushToOperationStream r i o d t with
            | .error e => .error e
            | .ok r3 => pushAllStates i o r3 rest from rfl] at h
    cases hpush : PushToOperationStream r i o d t with
    | error e => rw [hpush] at h; simp at h
    | ok r3 =>
      rw [hpush] at h
      rcases List.mem_cons.mp hp with rfl | hp
      · cases hb : d.state with
        | jval j => exact ⟨j, rfl⟩
        | unencodable err =>
          exfalso
          rw [show PushToOperationStream r i o d t = .error err by
                simp [PushToOperationStream, marshalStateEntry, hb]] at hpush
          simp at hpush
      · exact ih r3 r2 h p hp

theorem getLast?_some_of_ne_nil {α : Type} (l : List α) (h : l ≠ []) :
    ∃ a, l.getLast? = some a :=
  Option.isSome_iff_exists.mp (List.getLast?_isSome.mpr h)

theorem runTail_step_readErr {α : Type} (name : String) (dec : Entry → Option α)
    (send : α → Except Err Unit) (rd : String → Nat → ReadOutcome) (b : Bool)
    (rest : List TailStep) (k : Nat) (e : Err) (hrd : rd name k = .err e) :
    runTail name dec send (⟨rd, b⟩ :: rest) k = ([], .ret (some e)) := by
  simp [runTail, hrd]

theorem runTail_step_sinkErr {α : Type} (name : String) (dec : Entry → Option α)
    (send : α → Except Err Unit) (rd : String → Nat → ReadOutcome) (b : Bool)
    (rest : List TailStep) (k : Nat) (msgs : List Entry) (batches : List (List Entry))
    (lm : Entry) (sent : List α) (e : Err)
    (hrd : rd name k = .ok (msgs :: batches))
    (hlast : msgs.getLast? = some lm)
    (hproc : processMsgs dec send msgs = (sent, some e)) :
    runTail name dec send (⟨rd, b⟩ :: rest) k = (sent, .ret (some e)) := by
  simp [runTail, hrd, hlast, hproc]

theorem runTail_step_ctxDone {α : Type} (name : String) (dec : Entry → Option α)
    (send : α → Except Err Unit) (rd : String → Nat → ReadOutcome)
    (rest : List TailStep) (k : Nat) (msgs : List Entry) (batches : List (List Entry))
    (lm : Entry) (sent : List α)
    (hrd : rd name k = .ok (msgs :: batches))
    (hlast : msgs.getLast? = some lm)
    (hproc : processMsgs dec send msgs = (sent, none)) :
    runTail name dec send (⟨rd, true⟩ :: rest) k = (sent, .ret none) := by
  simp [runTail, hrd, hlast, hproc]

theorem runTail_step_continue {α : Type} (name : String) (dec : Entry → Option α)
    (send : α → Except Err Unit) (rd : String → Nat → ReadOutcome)
    (rest : List TailStep) (k : Nat) (msgs : List Entry) (batches : List (List Entry))
    (lm : Entry) (sent : List α)
    (hrd : rd name k = .ok (msgs :: batches))
    (hlast : msgs.getLast? = some lm)
    (hproc : processMsgs dec send msgs = (sent, none)) :
    runTail name dec send (⟨rd, false⟩ :: rest) k
      = (sent ++ (runTail name dec send rest lm.id).1,
         (runTail name dec send rest lm.id).2) := by
  simp [runTail, hrd, hlast, hproc]

theorem pushToLogStream_err (r : Redis) (i : Infra) (o : Operation) (l : TFLogLine)
    (e : Err) (he : r.appendErr = some e) : PushToLogStream r i o l = .error e := by
  simp [PushToLogStream, xadd, he]

theorem sendOperationCompleted_err (r : Redis) (i : Infra) (o : Operation)
    (e : Err) (he : r.appendErr = some e) : SendOperationCompleted r i o = .error e := by
  simp [SendOperationCompleted, xadd, he]

theorem pushToOperationStream_err_marshal (r : Redis) (i : Infra) (o : Operation)
    (d : TFResourceState) (t : Nat) (e : Err) (hb : d.state = .unencodable e) :
    PushToOperationStream r i o d t = .error e := by
  simp [PushToOperationStream, marshalStateEntry, hb]

theorem pushToOperationStream_err_transport (r : Redis) (i : Infra) (o : Operation)
    (d : TFResourceState) (t : Nat) (j : JVal) (e : Err)
    (hj : d.state = .jval j) (he : r.appendErr = some e) :
    PushToOperationStream r i o d t = .error e := by
  simp [PushToOperationStream, marshalStateEntry, hj, xadd, he]

theorem stateName_ne_logsName (i : Infra) (o : Operation) :
    getStateStreamName i o ≠ getLogsStreamName i o := by
  unfold getStateStreamName getLogsStreamName
  intro h
  have hlen := congrArg String.length h
  simp only [String.length_append] at hlen
  have h6 : "-state".length = 6 := rfl
  have h5 : "-logs".length = 5 := rfl
  omega

theorem runTail_no_panic {α : Type} (name : String) (dec : Entry → Option α)
    (send : α → Except Err Unit) :
    ∀ (env : List TailStep),
      (∀ step ∈ env, ∀ (nm : String) (k : Nat), (step.read nm k).wellFormed = true) →
      ∀ k, (runTail name dec send env k).2 ≠ .panicked := by
  intro env
  induction env with
  | nil =>
    intro _ k
    rw [show runTail name dec send [] k = ([], .running) from rfl]
    exact fun h => TailOutcome.noConfusion h
  | cons step rest ih =>
    intro hwf k
    obtain ⟨rd, b⟩ := step
    have hstep : (rd name k).wellFormed = true :=
      hwf ⟨rd, b⟩ (List.mem_cons_self _ _) name k
    cases hr : rd name k with
    | err e =>
      rw [runTail_step_readErr name dec send rd b rest k e hr]
      exact fun h => TailOutcome.noConfusion h
    | ok xs =>
      rw [hr] at hstep
      cases xs with
      | nil => simp [ReadOutcome.wellFormed] at hstep
      | cons msgs batches =>
        have hmsgs : msgs ≠ [] := by
          simpa [ReadOutcome.wellFormed] using hstep
        obtain ⟨lm, hlast⟩ := getLast?_some_of_ne_nil msgs hmsgs
        rcases hproc : processMsgs dec send msgs with ⟨sent, res⟩
        cases res with
        | some e =>
          rw [runTail_step_sinkErr name dec send rd b rest k msgs batches lm sent e hr hlast hproc]
          exact fun h => TailOutcome.noConfusion h
        | none =>
          cases b with
          | true =>
            rw [runTail_step_ctxDone name dec send rd rest k msgs batches lm sent hr hlast hproc]
            exact fun h => TailOutcome.noConfusion h
          | false =>
            rw [runTail_step_continue name dec send rd rest k msgs batches lm sent hr hlast hproc]
            exact ih (fun s hs nm kk => hwf s (List.mem_cons_of_mem _ hs) nm kk) lm.id

/-- Claim C9 (implicit): the tail loops index the read result without
guards, so StreamOperationLogs and StreamStateUpdate are free of
out-of-bounds access exactly under the precondition that every non-error
blocking read yields at least one stream batch whose first batch holds at
least one message; a successful read with no batch, or with an empty first
batch, makes the unguarded indexing go out of bounds (a runtime panic). -/
theorem c9_unguarded_indexing :
    (∀ (α : Type) (name : String) (dec : Entry → Option α) (send : α → Except Err Unit)
       (env : List TailStep),
       (∀ step ∈ env, ∀ (nm : String) (k : Nat), (step.read nm k).wellFormed = true) →
       ∀ k, (runTail name dec send env k).2 ≠ .panicked)
    ∧ (∀ (i : Infra) (o : Operation),
        (StreamStateUpdate [⟨fun _ _ => .ok [], false⟩] i o okSink).2 = .panicked
        ∧ (StreamOperationLogs [⟨fun _ _ => .ok [[]], false⟩] i o okSink).2 = .panicked) :=
  ⟨fun _ name dec send env h k => runTail_no_panic name dec send env h k,
   fun _ _ => ⟨rfl, rfl⟩⟩

/-- Witness for C9 at a concrete environment: a single read step that fails
with a transport error is well-formed, and the tail does not panic on it. -/
theorem c9_witness :
    (runTail "s" (fun _ => (none : Option Unit)) okSink
        [⟨fun _ _ => ReadOutcome.err "down", false⟩] 0).2 ≠ .panicked :=
  c9_unguarded_indexing.1 Unit "s" (fun _ => none) okSink
    [⟨fun _ _ => ReadOutcome.err "down", false⟩]
    (by
      intro step hs nm k
      rw [List.mem_singleton] at hs
      subst hs
      rfl) 0

/-- Claim C8: for every operation the state stream name and the logs stream
name are distinct strings, and a successful push to the logs stream leaves
the entries (and hence their order) of the state stream of the same
operation unchanged; conversely state-stream pushes (both the state update
and the completion marker) leave the logs stream unchanged. -/
theorem c8_interleaving_independence (i : Infra) (o : Operation) :
    getStateStreamName i o ≠ getLogsStreamName i o
    ∧ (∀ (r r2 : Redis) (l : TFLogLine), PushToLogStream r i o l = .ok r2 →
        r2.stream (getStateStreamName i o) = r.stream (getStateStreamName i o))
    ∧ (∀ (r r2 : Redis) (d : TFResourceState) (t : Nat),
        PushToOperationStream r i o d t = .ok r2 →
        r2.stream (getLogsStreamName i o) = r.stream (getLogsStreamName i o))
    ∧ (∀ (r r2 : Redis), SendOperationCompleted r i o = .ok r2 →
        r2.stream (getLogsStreamName i o) = r.stream (getLogsStreamName i o)) := by
  refine ⟨stateName_ne_logsName i o, ?_, ?_, ?_⟩
  · intro r r2 l h
    cases he : r.appendErr with
    | some e => rw [pushToLogStream_err r i o l e he] at h; simp at h
    | none =>
      rw [pushToLogStream_ok r i o l he] at h
      injection h with h
      subst h
      simp only [Redis.stream]
      rw [stream_insertEntry_other _ _ _ _ (stateName_ne_logsName i o)]
  · intro r r2 d t h
    cases hb : d.state with
    | unencodable e =>
      rw [pushToOperationStream_err_marshal r i o d t e hb] at h
      simp at h
    | jval j =>
      cases he : r.appendErr with
      | some e =>
        rw [pushToOperationStream_err_transport r i o d t j e hb he] at h
        simp at h
      | none =>
        rw [pushToOperationStream_ok r i o d t j hb he] at h
        injection h with h
        subst h
        simp only [Redis.stream]
        rw [stream_insertEntry_other _ _ _ _ (Ne.symm (stateName_ne_logsName i o))]
  · intro r r2 h
    cases he : r.appendErr with
    | some e => rw [sendOperationCompleted_err r i o e he] at h; simp at h
    | none =>
      rw [sendOperationCompleted_ok r i o he] at h
      injection h with h
      subst h
      simp only [Redis.stream]
      rw [stream_insertEntry_other _ _ _ _ (Ne.symm (stateName_ne_logsName i o))]

/-- Witness for C8 at a concrete input: pushing one log line into the empty
store leaves the state stream of the same operation empty. -/
theorem c8_witness :
    Redis.stream
        ⟨[("1-infra-op-logs", [⟨1, [("log", GoVal.str (.raw "[INFO] [t2] applying\n"))]⟩])],
         2, none⟩
        (getStateStreamName ⟨1, "infra"⟩ ⟨"op"⟩)
      = Redis.stream emptyRedis (getStateStreamName ⟨1, "infra"⟩ ⟨"op"⟩) :=
  (c8_interleaving_independence ⟨1, "infra"⟩ ⟨"op"⟩).2.1 emptyRedis
    ⟨[("1-infra-op-logs", [⟨1, [("log", GoVal.str (.raw "[INFO] [t2] applying\n"))]⟩])],
     2, none⟩
    ⟨"INFO", "t2", "applying", ⟨""⟩⟩ rfl

/-- Claim C2 counterexample: when cancellation fires while the tail is
blocked on XRead, the interrupted read returns the context error and the
tail takes the err branch, returning that error — not a nil return. At this
concrete input the claimed no-error return is false. -/
theorem c2_counterexample :
    StreamStateUpdate [⟨fun _ _ => .err "context canceled", true⟩] ⟨1, "infra"⟩ ⟨"op"⟩ okSink
      = ([], .ret (some "context canceled"))
    ∧ TailOutcome.ret (some "context canceled") ≠ .ret none := by
  exact ⟨rfl, by decide⟩

/-- Claim C2 (amended): a read that is interrupted with an error while the
tail is blocked (as when cancellation fires mid-read and the client returns
the context error) makes the tail return that error within the read-cycle,
delivering nothing; the nil (no-error) return happens only when the
cancellation is observed at the select after a successfully processed
batch, and then no further environment steps are consumed (no further
records are delivered). -/
theorem c2_cancellation_behavior (i : Infra) (o : Operation) :
    (∀ (e : Err) (b : Bool) (rest : List TailStep) (send : StateUpdateWriter),
      StreamStateUpdate (⟨fun _ _ => .err e, b⟩ :: rest) i o send = ([], .ret (some e)))
    ∧ (∀ (e : Err) (b : Bool) (rest : List TailStep) (send : LogWriter),
      StreamOperationLogs (⟨fun _ _ => .err e, b⟩ :: rest) i o send = ([], .ret (some e)))
    ∧ (∀ (ent : Entry) (v : TFResourceState) (send : StateUpdateWriter)
         (rest : List TailStep),
      decodeStateEntry ent = some v → send v = .ok () →
      StreamStateUpdate (⟨fun _ _ => .ok [[ent]], true⟩ :: rest) i o send
        = ([v], .ret none))
    ∧ (∀ (ent : Entry) (s : JStr) (send : LogWriter) (rest : List TailStep),
      decodeLogEntry ent = some s → send s = .ok () →
      StreamOperationLogs (⟨fun _ _ => .ok [[ent]], true⟩ :: rest) i o send
        = ([s], .ret none)) := by
  refine ⟨?_, ?_, ?_, ?_⟩
  · intro e b rest send
    exact runTail_step_readErr _ decodeStateEntry send _ b rest 0 e rfl
  · intro e b rest send
    exact runTail_step_readErr _ decodeLogEntry send _ b rest 0 e rfl
  · intro ent v send rest hdec hsend
    exact runTail_step_ctxDone _ decodeStateEntry send _ rest 0 [ent] [] ent [v] rfl rfl
      (by rw [processMsgs_cons_sinkOk decodeStateEntry send ent [] v hdec hsend]; rfl)
  · intro ent s send rest hdec hsend
    exact runTail_step_ctxDone _ decodeLogEntry send _ rest 0 [ent] [] ent [s] rfl rfl
      (by rw [processMsgs_cons_sinkOk decodeLogEntry send ent [] s hdec hsend]; rfl)

/-- Witness for C2 (amended) at a concrete input: a state entry holding a
null JSON payload decodes to the zero record; with cancellation set at the
batch boundary the tail delivers it and returns nil, ignoring a later
environment step. -/
theorem c2_witness :
    StreamStateUpdate
        [⟨fun _ _ => .ok [[⟨1, [("data", GoVal.str (.json .null))]⟩]], true⟩,
         ⟨fun _ _ => .err "never reached", false⟩]
        ⟨1, "infra"⟩ ⟨"op"⟩ okSink
      = ([⟨"", .jval .null⟩], .ret none) :=
  (c2_cancellation_behavior ⟨1, "infra"⟩ ⟨"op"⟩).2.2.1
    ⟨1, [("data", GoVal.str (.json .null))]⟩ ⟨"", .jval .null⟩ okSink
    [⟨fun _ _ => .err "never reached", false⟩] rfl rfl

/-- Claim C3 counterexample: there is no caller-supplied starting offset —
both tails hardcode the starting cursor to the beginning (0-0, modelled 0).
A probe read function that reports the stream name and offset it was asked
for shows both tails issuing their first read at offset 0 on the derived
stream name; no input to either function can make them start elsewhere. -/
theorem c3_counterexample :
    StreamOperationLogs [⟨fun name k => .err (name ++ ":" ++ toString k), false⟩]
        ⟨1, "infra"⟩ ⟨"op"⟩ okSink = ([], .ret (some "1-infra-op-logs:0"))
    ∧ StreamStateUpdate [⟨fun name k => .err (name ++ ":" ++ toString k), false⟩]
        ⟨1, "infra"⟩ ⟨"op"⟩ okSink = ([], .ret (some "1-infra-op-state:0")) :=
  ⟨rfl, rfl⟩

/-- Claim C3 (amended): StreamOperationLogs and StreamStateUpdate always
tail from the beginning of the stream: the starting cursor is hardcoded to
0-0 (modelled 0) rather than caller-supplied, the first read is issued at
that cursor on the stream name derived from the operation, and reading from
the beginning skips nothing (every entry of the stream has an ID after the
initial cursor). -/
theorem c3_tail_from_beginning (i : Infra) (o : Operation) :
    (∀ (f : String → Nat → Err) (b : Bool) (rest : List TailStep) (send : LogWriter),
      StreamOperationLogs (⟨fun name k => .err (f name k), b⟩ :: rest) i o send
        = ([], .ret (some (f (getLogsStreamName i o) 0))))
    ∧ (∀ (f : String → Nat → Err) (b : Bool) (rest : List TailStep)
         (send : StateUpdateWriter),
      StreamStateUpdate (⟨fun name k => .err (f name k), b⟩ :: rest) i o send
        = ([], .ret (some (f (getStateStreamName i o) 0))))
    ∧ (∀ es : List Entry, (∀ e ∈ es, 1 ≤ e.id) → xreadSince es 0 = es) := by
  refine ⟨?_, ?_, fun es h => xreadSince_zero es h⟩
  · intro f b rest send
    exact runTail_step_readErr _ decodeLogEntry send _ b rest 0 _ rfl
  · intro f b rest send
    exact runTail_step_readErr _ decodeStateEntry send _ b rest 0 _ rfl

/-- Witness for C3 (amended) at a concrete input: a singleton stream whose
entry has ID 1 is returned whole when read from the initial cursor. -/
theorem c3_witness :
    xreadSince [⟨1, []⟩] 0 = [⟨1, []⟩] :=
  (c3_tail_from_beginning ⟨1, "infra"⟩ ⟨"op"⟩).2.2 [⟨1, []⟩]
    (by
      intro e he
      rw [List.mem_singleton] at he
      subst he
      exact Nat.le_refl 1)

/-- Claim C4 counterexample: getLogString appends a trailing newline, so
the line delivered for the spec example log record is the string
with a trailing newline, not the bare string the claim states. -/
theorem c4_counterexample :
    (StreamOperationLogs
        [⟨fun _ _ => .ok
            [[⟨1, [("log", GoVal.str (.raw (getLogString ⟨"INFO", "t2", "applying", ⟨""⟩⟩)))]⟩]],
          false⟩]
        ⟨1, "infra"⟩ ⟨"op"⟩ okSink).1
      = [.raw "[INFO] [t2] applying\n"]
    ∧ getLogString ⟨"INFO", "t2", "applying", ⟨""⟩⟩ ≠ "[INFO] [t2] applying" :=
  ⟨rfl, by decide⟩

/-- Claim C4 (amended): every log record pushed with PushToLogStream is
delivered to the log-stream sink as the single formatted line of the form
level, timestamp, message in brackets, with a detail suffix when the detail
field is non-empty and a trailing newline; in the spec example scenario the
consumer observes exactly the string with trailing newline. -/
theorem c4_log_line_delivery (i : Infra) (o : Operation) (l : TFLogLine) :
    (∀ r2, PushToLogStream emptyRedis i o l = .ok r2 →
      StreamOperationLogs [⟨fun name k => .ok [xreadSince (r2.stream name) k], false⟩]
          i o okSink
        = ([.raw (getLogString l)], .running))
    ∧ (l.diagnostic.detail = "" →
        getLogString l = "[" ++ l.level ++ "] [" ++ l.timestamp ++ "] " ++ l.message ++ "\n")
    ∧ (l.diagnostic.detail ≠ "" →
        getLogString l = "[" ++ l.level ++ "] [" ++ l.timestamp ++ "] " ++ l.message
          ++ ": " ++ l.diagnostic.detail ++ "\n")
    ∧ getLogString ⟨"INFO", "t2", "applying", ⟨""⟩⟩ = "[INFO] [t2] applying\n" := by
  refine ⟨?_, ?_, ?_, rfl⟩
  · intro r2 h
    rw [pushToLogStream_ok emptyRedis i o l rfl] at h
    injection h with h
    subst h
    have hstream :
        Redis.stream
          ⟨insertEntry emptyRedis.streams (getLogsStreamName i o)
             ⟨emptyRedis.nextID, [("log", .str (.raw (getLogString l)))]⟩,
           emptyRedis.nextID + 1, none⟩
          (getLogsStreamName i o)
        = [⟨1, [("log", .str (.raw (getLogString l)))]⟩] := by
      simp [Redis.stream, emptyRedis, insertEntry, assocFind]
    have hread :
        xreadSince
          (Redis.stream
            ⟨insertEntry emptyRedis.streams (getLogsStreamName i o)
               ⟨emptyRedis.nextID, [("log", .str (.raw (getLogString l)))]⟩,
             emptyRedis.nextID + 1, none⟩
            (getLogsStreamName i o)) 0
        = [⟨1, [("log", .str (.raw (getLogString l)))]⟩] := by
      rw [hstream]
      refine xreadSince_zero _ ?_
      intro e he
      rw [List.mem_singleton] at he
      subst he
      exact Nat.le_refl 1
    simp only [StreamOperationLogs]
    rw [runTail_step_continue (getLogsStreamName i o) decodeLogEntry okSink _ [] 0
      [⟨1, [("log", .str (.raw (getLogString l)))]⟩] [] ⟨1, [("log", .str (.raw (getLogString l)))]⟩
      [.raw (getLogString l)] (by rw [hread]) rfl rfl]
    simp [runTail]
  · intro h
    simp [getLogString, h]
  · intro h
    simp [getLogString, h]

/-- Witness for C4 (amended): the spec example record round-trips through
PushToLogStream and StreamOperationLogs as the single formatted line with a
trailing newline; the detail suffix appears exactly when detail is
non-empty. -/
theorem c4_witness :
    StreamOperationLogs
        [⟨fun name k => .ok [xreadSince (Redis.stream
            ⟨[("1-infra-op-logs", [⟨1, [("log", GoVal.str (.raw "[INFO] [t2] applying\n"))]⟩])],
             2, none⟩ name) k], false⟩]
        ⟨1, "infra"⟩ ⟨"op"⟩ okSink
      = ([.raw (getLogString ⟨"INFO", "t2", "applying", ⟨""⟩⟩)], .running)
    ∧ getLogString ⟨"INFO", "t2", "applying", ⟨""⟩⟩
        = "[" ++ "INFO" ++ "] [" ++ "t2" ++ "] " ++ "applying" ++ "\n"
    ∧ getLogString ⟨"ERROR", "t3", "failed", ⟨"bad"⟩⟩
        = "[" ++ "ERROR" ++ "] [" ++ "t3" ++ "] " ++ "failed" ++ ": " ++ "bad" ++ "\n" :=
  ⟨(c4_log_line_delivery ⟨1, "infra"⟩ ⟨"op"⟩ ⟨"INFO", "t2", "applying", ⟨""⟩⟩).1
      ⟨[("1-infra-op-logs", [⟨1, [("log", GoVal.str (.raw "[INFO] [t2] applying\n"))]⟩])],
       2, none⟩ rfl,
   (c4_log_line_delivery ⟨1, "infra"⟩ ⟨"op"⟩ ⟨"INFO", "t2", "applying", ⟨""⟩⟩).2.1 rfl,
   (c4_log_line_delivery ⟨1, "infra"⟩ ⟨"op"⟩ ⟨"ERROR", "t3", "failed", ⟨"bad"⟩⟩).2.2.1
      (by decide)⟩

/-- Claim C5: a tail that reads one batch holding a valid entry, an
undecodable entry (missing field, non-string value, or a state payload that
fails JSON decoding) and another valid entry delivers exactly the two valid
records, in order, skips the malformed entry silently and does not abort —
for both the state-stream and the log-stream consumers. -/
theorem c5_malformed_entry_skipped (i : Infra) (o : Operation) :
    (∀ (e1 bad e2 : Entry) (r1 r2 : TFResourceState),
      decodeStateEntry e1 = some r1 → decodeStateEntry bad = none →
      decodeStateEntry e2 = some r2 →
      StreamStateUpdate [⟨fun _ _ => .ok [[e1, bad, e2]], false⟩] i o okSink
        = ([r1, r2], .running))
    ∧ (∀ (e1 bad e2 : Entry) (s1 s2 : JStr),
      decodeLogEntry e1 = some s1 → decodeLogEntry bad = none →
      decodeLogEntry e2 = some s2 →
      StreamOperationLogs [⟨fun _ _ => .ok [[e1, bad, e2]], false⟩] i o okSink
        = ([s1, s2], .running)) := by
  constructor
  · intro e1 bad e2 r1 r2 h1 h2 h3
    have hproc : processMsgs decodeStateEntry okSink [e1, bad, e2] = ([r1, r2], none) := by
      rw [processMsgs_cons_sinkOk decodeStateEntry okSink e1 [bad, e2] r1 h1 rfl,
          processMsgs_cons_none decodeStateEntry okSink bad [e2] h2,
          processMsgs_cons_sinkOk decodeStateEntry okSink e2 [] r2 h3 rfl]
      rfl
    simp only [StreamStateUpdate]
    rw [runTail_step_continue (getStateStreamName i o) decodeStateEntry okSink _ [] 0
      [e1, bad, e2] [] e2 [r1, r2] rfl rfl hproc]
    simp [runTail]
  · intro e1 bad e2 s1 s2 h1 h2 h3
    have hproc : processMsgs decodeLogEntry okSink [e1, bad, e2] = ([s1, s2], none) := by
      rw [processMsgs_cons_sinkOk decodeLogEntry okSink e1 [bad, e2] s1 h1 rfl,
          processMsgs_cons_none decodeLogEntry okSink bad [e2] h2,
          processMsgs_cons_sinkOk decodeLogEntry okSink e2 [] s2 h3 rfl]
      rfl
    simp only [StreamOperationLogs]
    rw [runTail_step_continue (getLogsStreamName i o) decodeLogEntry okSink _ [] 0
      [e1, bad, e2] [] e2 [s1, s2] rfl rfl hproc]
    simp [runTail]

/-- Witness for C5 at concrete entries: a non-string data value between two
decodable state payloads is skipped; a missing log field between two log
lines is skipped. -/
theorem c5_witness :
    StreamStateUpdate
        [⟨fun _ _ => .ok
            [[⟨1, [("data", GoVal.str (.json (.jobj [("resource_id", JVal.jstr "a")])))]⟩,
              ⟨2, [("data", GoVal.nonString)]⟩,
              ⟨3, [("data", GoVal.str (.json (.jobj [("resource_id", JVal.jstr "b")])))]⟩]],
          false⟩]
        ⟨1, "infra"⟩ ⟨"op"⟩ okSink
      = ([⟨"a", .jval .null⟩, ⟨"b", .jval .null⟩], .running)
    ∧ StreamOperationLogs
        [⟨fun _ _ => .ok
            [[⟨1, [("log", GoVal.str (.raw "m1"))]⟩,
              ⟨2, [("other", GoVal.str (.raw "junk"))]⟩,
              ⟨3, [("log", GoVal.str (.raw "m2"))]⟩]],
          false⟩]
        ⟨1, "infra"⟩ ⟨"op"⟩ okSink
      = ([.raw "m1", .raw "m2"], .running) :=
  ⟨(c5_malformed_entry_skipped ⟨1, "infra"⟩ ⟨"op"⟩).1
      ⟨1, [("data", GoVal.str (.json (.jobj [("resource_id", JVal.jstr "a")])))]⟩
      ⟨2, [("data", GoVal.nonString)]⟩
      ⟨3, [("data", GoVal.str (.json (.jobj [("resource_id", JVal.jstr "b")])))]⟩
      ⟨"a", .jval .null⟩ ⟨"b", .jval .null⟩ rfl rfl rfl,
   (c5_malformed_entry_skipped ⟨1, "infra"⟩ ⟨"op"⟩).2
      ⟨1, [("log", GoVal.str (.raw "m1"))]⟩
      ⟨2, [("other", GoVal.str (.raw "junk"))]⟩
      ⟨3, [("log", GoVal.str (.raw "m2"))]⟩
      (.raw "m1") (.raw "m2") rfl rfl rfl⟩

/-- Claim C6: when the caller-supplied sink rejects a delivered record, the
tail aborts immediately and returns that exact error; with a sink that
accepts the first record and fails on the second, the tail returns the
error after exactly one successful delivery — for both consumers. -/
theorem c6_sink_abort (i : Infra) (o : Operation) :
    (∀ (e1 e2 : Entry) (r1 r2 : TFResourceState) (send : StateUpdateWriter) (err : Err),
      decodeStateEntry e1 = some r1 → decodeStateEntry e2 = some r2 →
      send r1 = .ok () → send r2 = .error err →
      StreamStateUpdate [⟨fun _ _ => .ok [[e1, e2]], false⟩] i o send
        = ([r1], .ret (some err)))
    ∧ (∀ (e1 e2 : Entry) (s1 s2 : JStr) (send : LogWriter) (err : Err),
      decodeLogEntry e1 = some s1 → decodeLogEntry e2 = some s2 →
      send s1 = .ok () → send s2 = .error err →
      StreamOperationLogs [⟨fun _ _ => .ok [[e1, e2]], false⟩] i o send
        = ([s1], .ret (some err))) := by
  constructor
  · intro e1 e2 r1 r2 send err h1 h2 hs1 hs2
    have hproc : processMsgs decodeStateEntry send [e1, e2] = ([r1], some err) := by
      rw [processMsgs_cons_sinkOk decodeStateEntry send e1 [e2] r1 h1 hs1,
          processMsgs_cons_sinkErr decodeStateEntry send e2 [] r2 err h2 hs2]
    simp only [StreamStateUpdate]
    rw [runTail_step_sinkErr (getStateStreamName i o) decodeStateEntry send _ false [] 0
      [e1, e2] [] e2 [r1] err rfl rfl hproc]
  · intro e1 e2 s1 s2 send err h1 h2 hs1 hs2
    have hproc : processMsgs decodeLogEntry send [e1, e2] = ([s1], some err) := by
      rw [processMsgs_cons_sinkOk decodeLogEntry send e1 [e2] s1 h1 hs1,
          processMsgs_cons_sinkErr decodeLogEntry send e2 [] s2 err h2 hs2]
    simp only [StreamOperationLogs]
    rw [runTail_step_sinkErr (getLogsStreamName i o) decodeLogEntry send _ false [] 0
      [e1, e2] [] e2 [s1] err rfl rfl hproc]

/-- Witness for C6 at concrete entries and sinks that fail exactly on the
second record: the tail returns that error after one successful delivery. -/
theorem c6_witness :
    StreamStateUpdate
        [⟨fun _ _ => .ok
            [[⟨1, [("data", GoVal.str (.json (.jobj [("resource_id", JVal.jstr "a")])))]⟩,
              ⟨2, [("data", GoVal.str (.json (.jobj [("resource_id", JVal.jstr "b")])))]⟩]],
          false⟩]
        ⟨1, "infra"⟩ ⟨"op"⟩
        (fun v => if v.resource_id = "b" then .error "boom" else .ok ())
      = ([⟨"a", .jval .null⟩], .ret (some "boom"))
    ∧ StreamOperationLogs
        [⟨fun _ _ => .ok
            [[⟨1, [("log", GoVal.str (.raw "m1"))]⟩,
              ⟨2, [("log", GoVal.str (.raw "m2"))]⟩]],
          false⟩]
        ⟨1, "infra"⟩ ⟨"op"⟩
        (fun s => match s with
          | .raw str => if str = "m2" then .error "boom" else .ok ()
          | .json _ => .ok ())
      = ([.raw "m1"], .ret (some "boom")) :=
  ⟨(c6_sink_abort ⟨1, "infra"⟩ ⟨"op"⟩).1
      ⟨1, [("data", GoVal.str (.json (.jobj [("resource_id", JVal.jstr "a")])))]⟩
      ⟨2, [("data", GoVal.str (.json (.jobj [("resource_id", JVal.jstr "b")])))]⟩
      ⟨"a", .jval .null⟩ ⟨"b", .jval .null⟩
      (fun v => if v.resource_id = "b" then .error "boom" else .ok ()) "boom"
      rfl rfl rfl rfl,
   (c6_sink_abort ⟨1, "infra"⟩ ⟨"op"⟩).2
      ⟨1, [("log", GoVal.str (.raw "m1"))]⟩
      ⟨2, [("log", GoVal.str (.raw "m2"))]⟩
      (.raw "m1") (.raw "m2")
      (fun s => match s with
        | .raw str => if str = "m2" then .error "boom" else .ok ()
        | .json _ => .ok ()) "boom"
      rfl rfl rfl rfl⟩

/-- Claim C7: each producer call returns an error exactly when payload
serialization fails or the underlying stream append fails, and it returns
that error to the caller unchanged (no retry, no wrapping); on success the
call performs exactly one append (one entry at the tail of the target
stream, one auto ID consumed) and returns nil. PushToLogStream and
SendOperationCompleted have no failing serialization step, so for them an
error occurs exactly on append failure. -/
theorem c7_producer_error_contract (r : Redis) (i : Infra) (o : Operation)
    (d : TFResourceState) (t : Nat) (l : TFLogLine) :
    ((∀ e : Err, PushToOperationStream r i o d t = .error e ↔
        (marshalStateEntry ⟨d, t⟩ = .error e
          ∨ ((∃ j, marshalStateEntry ⟨d, t⟩ = .ok j) ∧ r.appendErr = some e)))
      ∧ (∀ j, d.state = .jval j → r.appendErr = none →
          PushToOperationStream r i o d t =
            .ok ⟨insertEntry r.streams (getStateStreamName i o)
                   ⟨r.nextID, stateValues i o d t j⟩, r.nextID + 1, none⟩))
    ∧ ((∀ e : Err, PushToLogStream r i o l = .error e ↔ r.appendErr = some e)
      ∧ (r.appendErr = none →
          PushToLogStream r i o l =
            .ok ⟨insertEntry r.streams (getLogsStreamName i o)
                   ⟨r.nextID, [("log", .str (.raw (getLogString l)))]⟩, r.nextID + 1, none⟩))
    ∧ ((∀ e : Err, SendOperationCompleted r i o = .error e ↔ r.appendErr = some e)
      ∧ (r.appendErr = none →
          SendOperationCompleted r i o =
            .ok ⟨insertEntry r.streams (getStateStreamName i o)
                   ⟨r.nextID, markerValues i o⟩, r.nextID + 1, none⟩)) := by
  refine ⟨⟨?_, ?_⟩, ⟨?_, ?_⟩, ⟨?_, ?_⟩⟩
  · intro e
    cases hb : d.state with
    | unencodable e0 =>
      have hm : marshalStateEntry ⟨d, t⟩ = .error e0 := by
        simp [marshalStateEntry, hb]
      rw [pushToOperationStream_err_marshal r i o d t e0 hb]
      constructor
      · intro h
        injection h with h
        subst h
        exact Or.inl hm
      · intro h
        rcases h with h | ⟨⟨j, hj⟩, -⟩
        · rw [hm] at h
          injection h with h
          rw [h]
        · rw [hm] at hj
          exact Except.noConfusion hj
    | jval j =>
      have hm : marshalStateEntry ⟨d, t⟩
          = .ok (.jobj [("resource_id", .jstr d.resource_id),
                        ("state", j), ("pushed_at", .jnum t)]) := by
        simp [marshalStateEntry, hb]
      cases he : r.appendErr with
      | some e0 =>
        rw [pushToOperationStream_err_transport r i o d t j e0 hb he]
        constructor
        · intro h
          injection h with h
          subst h
          exact Or.inr ⟨⟨_, hm⟩, rfl⟩
        · intro h
          rcases h with h | ⟨-, h2⟩
          · rw [hm] at h
            exact Except.noConfusion h
          · injection h2 with h2
            rw [h2]
      | none =>
        rw [pushToOperationStream_ok r i o d t j hb he]
        constructor
        · intro h
          exact Except.noConfusion h
        · intro h
          rcases h with h | ⟨-, h2⟩
          · rw [hm] at h
            exact Except.noConfusion h
          · exact Option.noConfusion h2
  · intro j hj he
    exact pushToOperationStream_ok r i o d t j hj he
  · intro e
    cases he : r.appendErr with
    | some e0 =>
      rw [pushToLogStream_err r i o l e0 he]
      constructor
      · intro h
        injection h with h
        subst h
        rfl
      · intro h
        injection h with h
        rw [h]
    | none =>
      rw [pushToLogStream_ok r i o l he]
      constructor
      · intro h
        exact Except.noConfusion h
      · intro h
        exact Option.noConfusion h
  · intro he
    exact pushToLogStream_ok r i o l he
  · intro e
    cases he : r.appendErr with
    | some e0 =>
      rw [sendOperationCompleted_err r i o e0 he]
      constructor
      · intro h
        injection h with h
        subst h
        rfl
      · intro h
        injection h with h
        rw [h]
    | none =>
      rw [sendOperationCompleted_ok r i o he]
      constructor
      · intro h
        exact Except.noConfusion h
      · intro h
        exact Option.noConfusion h
  · intro he
    exact sendOperationCompleted_ok r i o he

/-- Witness for C7 at concrete inputs: a successful state push appends one
entry and returns nil; an unencodable payload surfaces the serialization
error; a transport fault on the logs stream surfaces the append error; the
completion marker push on a healthy store succeeds. -/
theorem c7_witness :
    PushToOperationStream emptyRedis ⟨1, "infra"⟩ ⟨"op"⟩ ⟨"r1", .jval .null⟩ 7
      = .ok ⟨insertEntry emptyRedis.streams (getStateStreamName ⟨1, "infra"⟩ ⟨"op"⟩)
               ⟨1, stateValues ⟨1, "infra"⟩ ⟨"op"⟩ ⟨"r1", .jval .null⟩ 7 .null⟩, 2, none⟩
    ∧ PushToOperationStream emptyRedis ⟨1, "infra"⟩ ⟨"op"⟩ ⟨"x", .unencodable "nope"⟩ 7
      = .error "nope"
    ∧ PushToLogStream ⟨[], 5, some "down"⟩ ⟨1, "infra"⟩ ⟨"op"⟩ ⟨"INFO", "t2", "applying", ⟨""⟩⟩
      = .error "down"
    ∧ SendOperationCompleted emptyRedis ⟨1, "infra"⟩ ⟨"op"⟩
      = .ok ⟨insertEntry emptyRedis.streams (getStateStreamName ⟨1, "infra"⟩ ⟨"op"⟩)
               ⟨1, markerValues ⟨1, "infra"⟩ ⟨"op"⟩⟩, 2, none⟩ :=
  ⟨(c7_producer_error_contract emptyRedis ⟨1, "infra"⟩ ⟨"op"⟩ ⟨"r1", .jval .null⟩ 7
      ⟨"INFO", "t2", "applying", ⟨""⟩⟩).1.2 .null rfl rfl,
   ((c7_producer_error_contract emptyRedis ⟨1, "infra"⟩ ⟨"op"⟩ ⟨"x", .unencodable "nope"⟩ 7
      ⟨"INFO", "t2", "applying", ⟨""⟩⟩).1.1 "nope").mpr (Or.inl rfl),
   ((c7_producer_error_contract ⟨[], 5, some "down"⟩ ⟨1, "infra"⟩ ⟨"op"⟩ ⟨"r1", .jval .null⟩ 7
      ⟨"INFO", "t2", "applying", ⟨""⟩⟩).2.1.1 "down").mpr rfl,
   (c7_producer_error_contract emptyRedis ⟨1, "infra"⟩ ⟨"op"⟩ ⟨"r1", .jval .null⟩ 7
      ⟨"INFO", "t2", "applying", ⟨""⟩⟩).2.2.2 rfl⟩

theorem runTail_keeps_running {α : Type} (name : String) (dec : Entry → Option α)
    (send : α → Except Err Unit) (hsend : ∀ a, send a = .ok ()) :
    ∀ (env : List TailStep),
      (∀ step ∈ env, step.ctxDone = false
        ∧ ∀ (nm : String) (k : Nat), (step.read nm k).wellFormed = true
            ∧ ∀ e, step.read nm k ≠ .err e) →
      ∀ k, (runTail name dec send env k).2 = .running := by
  intro env
  induction env with
  | nil => intro _ k; rfl
  | cons step rest ih =>
    intro h k
    obtain ⟨rd, b⟩ := step
    obtain ⟨hctx, hrw⟩ := h ⟨rd, b⟩ (List.mem_cons_self _ _)
    have hb : b = false := hctx
    subst hb
    have hwf : (rd name k).wellFormed = true := (hrw name k).1
    have hne : ∀ e, rd name k ≠ .err e := fun e => (hrw name k).2 e
    cases hr : rd name k with
    | err e => exact absurd hr (hne e)
    | ok xs =>
      rw [hr] at hwf
      cases xs with
      | nil => simp [ReadOutcome.wellFormed] at hwf
      | cons msgs batches =>
        have hmsgs : msgs ≠ [] := by
          simpa [ReadOutcome.wellFormed] using hwf
        obtain ⟨lm, hlast⟩ := getLast?_some_of_ne_nil msgs hmsgs
        have hproc := processMsgs_ok_sink dec send hsend msgs
        rw [runTail_step_continue name dec send rd rest k msgs batches lm _ hr hlast hproc]
        exact ih (fun s hs => h s (List.mem_cons_of_mem _ hs)) lm.id

/-- Claim C10 (implicit): observing the completion marker never terminates
the state tail — the marker payload (status OPERATION_COMPLETED) decodes
successfully into a zero-valued state record and is delivered to the sink
like any other record; StreamStateUpdate returns only on a read error, a
sink error, or cancellation, never in response to stream content alone
(with error-free well-formed reads, an accepting sink and no cancellation,
the loop never returns). -/
theorem c10_marker_not_terminal (i : Infra) (o : Operation) :
    unmarshalTFResourceState (.jobj [("status", .jstr "OPERATION_COMPLETED")])
      = some ⟨"", .jval .null⟩
    ∧ (∀ n : Nat, decodeStateEntry ⟨n, markerValues i o⟩ = some ⟨"", .jval .null⟩)
    ∧ (∀ r2, SendOperationCompleted emptyRedis i o = .ok r2 →
        StreamStateUpdate [⟨fun name k => .ok [xreadSince (r2.stream name) k], false⟩]
            i o okSink
          = ([⟨"", .jval .null⟩], .running))
    ∧ (∀ (env : List TailStep),
        (∀ step ∈ env, step.ctxDone = false
          ∧ ∀ (nm : String) (k : Nat), (step.read nm k).wellFormed = true
              ∧ ∀ e, step.read nm k ≠ .err e) →
        ∀ (send : StateUpdateWriter), (∀ a, send a = .ok ()) →
        ∀ k, (runTail (getStateStreamName i o) decodeStateEntry send env k).2 = .running) := by
  refine ⟨rfl, fun n => decodeStateEntry_marker i o n, ?_,
    fun env h send hsend k =>
      runTail_keeps_running (getStateStreamName i o) decodeStateEntry send hsend env h k⟩
  intro r2 h
  rw [sendOperationCompleted_ok emptyRedis i o rfl] at h
  injection h with h
  subst h
  have hstream :
      Redis.stream
        ⟨insertEntry emptyRedis.streams (getStateStreamName i o)
           ⟨emptyRedis.nextID, markerValues i o⟩,
         emptyRedis.nextID + 1, none⟩
        (getStateStreamName i o)
      = [⟨1, markerValues i o⟩] := by
    simp [Redis.stream, emptyRedis, insertEntry, assocFind]
  have hread :
      xreadSince
        (Redis.stream
          ⟨insertEntry emptyRedis.streams (getStateStreamName i o)
             ⟨emptyRedis.nextID, markerValues i o⟩,
           emptyRedis.nextID + 1, none⟩
          (getStateStreamName i o)) 0
      = [⟨1, markerValues i o⟩] := by
    rw [hstream]
    refine xreadSince_zero _ ?_
    intro e he
    rw [List.mem_singleton] at he
    subst he
    exact Nat.le_refl 1
  simp only [StreamStateUpdate]
  rw [runTail_step_continue (getStateStreamName i o) decodeStateEntry okSink _ [] 0
    [⟨1, markerValues i o⟩] [] ⟨1, markerValues i o⟩ [⟨"", .jval .null⟩]
    (by rw [hread]) rfl
    (by
      rw [processMsgs_cons_sinkOk decodeStateEntry okSink _ [] _
        (decodeStateEntry_marker i o 1) rfl]
      rfl)]
  simp [runTail]

/-- Witness for C10 at concrete inputs: the marker entry decodes to the
zero record; tailing a store holding only the marker delivers it and keeps
running; a run over a marker-only environment with an accepting sink and no
cancellation keeps running. -/
theorem c10_witness :
    decodeStateEntry ⟨5, markerValues ⟨1, "infra"⟩ ⟨"op"⟩⟩ = some ⟨"", .jval .null⟩
    ∧ StreamStateUpdate
        [⟨fun name k => .ok [xreadSince (Redis.stream
            ⟨[("1-infra-op-state", [⟨1, markerValues ⟨1, "infra"⟩ ⟨"op"⟩⟩])], 2, none⟩ name) k],
          false⟩]
        ⟨1, "infra"⟩ ⟨"op"⟩ okSink
      = ([⟨"", .jval .null⟩], .running)
    ∧ (runTail (getStateStreamName ⟨1, "infra"⟩ ⟨"op"⟩) decodeStateEntry okSink
        [⟨fun _ _ => .ok [[⟨1, markerValues ⟨1, "infra"⟩ ⟨"op"⟩⟩]], false⟩] 0).2 = .running :=
  ⟨(c10_marker_not_terminal ⟨1, "infra"⟩ ⟨"op"⟩).2.1 5,
   (c10_marker_not_terminal ⟨1, "infra"⟩ ⟨"op"⟩).2.2.1
      ⟨[("1-infra-op-state", [⟨1, markerValues ⟨1, "infra"⟩ ⟨"op"⟩⟩])], 2, none⟩ rfl,
   (c10_marker_not_terminal ⟨1, "infra"⟩ ⟨"op"⟩).2.2.2
      [⟨fun _ _ => .ok [[⟨1, markerValues ⟨1, "infra"⟩ ⟨"op"⟩⟩]], false⟩]
      (by
        intro step hs
        rw [List.mem_singleton] at hs
        subst hs
        exact ⟨rfl, fun nm k => ⟨rfl, fun e he => ReadOutcome.noConfusion he⟩⟩)
      okSink (fun a => rfl) 0⟩

theorem processMsgs_builtEntries (i : Infra) (o : Operation)
    (ps : List (TFResourceState × Nat)) :
    ∀ n, (∀ p ∈ ps, ∃ j, (p.1).state = .jval j) →
    processMsgs decodeStateEntry okSink (builtEntries i o ps n)
      = (ps.map (fun p => p.1), none) := by
  induction ps with
  | nil => intro n _; rfl
  | cons p rest ih =>
    intro n h
    obtain ⟨d, t⟩ := p
    obtain ⟨j, hj⟩ := h (d, t) (List.mem_cons_self _ _)
    have hj2 : d.state = StateBlob.jval j := hj
    have hentry : (⟨n, stateValues i o d t (StateBlob.jOf d.state)⟩ : Entry)
        = ⟨n, stateValues i o d t j⟩ := by
      simp [hj2, StateBlob.jOf]
    rw [show builtEntries i o ((d, t) :: rest) n
          = ⟨n, stateValues i o d t d.state.jOf⟩ :: builtEntries i o rest (n + 1) from rfl,
        hentry,
        processMsgs_cons_sinkOk decodeStateEntry okSink _ _ d
          (decodeStateEntry_stateValues i o d t n j hj) rfl,
        ih (n + 1) (fun q hq => h q (List.mem_cons_of_mem _ hq))]
    simp

/-- Claim C1: after a sequence of N successful PushToOperationStream calls
for one operation, a StreamStateUpdate consumer tailing the state stream
from the initial cursor delivers exactly those N state records to its sink,
in push order; when SendOperationCompleted was called after the pushes, the
completion marker follows them (delivered as the decoded zero-valued state
record, see C10). -/
theorem c1_push_order_delivery (i : Infra) (o : Operation)
    (ps : List (TFResourceState × Nat)) (r2 : Redis)
    (hpush : pushAllStates i o emptyRedis ps = .ok r2) :
    (ps ≠ [] →
      StreamStateUpdate [⟨fun name k => .ok [xreadSince (r2.stream name) k], true⟩]
          i o okSink
        = (ps.map (fun p => p.1), .ret none))
    ∧ (∀ r3, SendOperationCompleted r2 i o = .ok r3 →
        StreamStateUpdate [⟨fun name k => .ok [xreadSince (r3.stream name) k], true⟩]
            i o okSink
          = (ps.map (fun p => p.1) ++ [⟨"", .jval .null⟩], .ret none)) := by
  obtain ⟨hae, hnid, hstream, hframe⟩ := pushAllStates_ok i o ps emptyRedis r2 rfl hpush
  have henc := pushAllStates_encodable i o ps emptyRedis r2 hpush
  have hstream2 : r2.stream (getStateStreamName i o) = builtEntries i o ps 1 := by
    rw [hstream]
    rfl
  constructor
  · intro hne
    have hbne : builtEntries i o ps 1 ≠ [] := by
      cases ps with
      | nil => exact absurd rfl hne
      | cons p rest =>
        obtain ⟨d, t⟩ := p
        exact builtEntries_ne_nil i o d t rest 1
    obtain ⟨lm, hlast⟩ := getLast?_some_of_ne_nil _ hbne
    have hread : xreadSince (r2.stream (getStateStreamName i o)) 0 = builtEntries i o ps 1 := by
      rw [hstream2]
      exact xreadSince_zero _ (builtEntries_id_ge i o ps 1)
    simp only [StreamStateUpdate]
    rw [runTail_step_ctxDone (getStateStreamName i o) decodeStateEntry okSink _ [] 0
      (builtEntries i o ps 1) [] lm (ps.map (fun p => p.1))
      (by rw [hread]) hlast (processMsgs_builtEntries i o ps 1 henc)]
  · intro r3 h
    rw [sendOperationCompleted_ok r2 i o hae] at h
    injection h with h
    subst h
    have hstream3 :
        Redis.stream
          ⟨insertEntry r2.streams (getStateStreamName i o) ⟨r2.nextID, markerValues i o⟩,
           r2.nextID + 1, none⟩
          (getStateStreamName i o)
        = builtEntries i o ps 1 ++ [⟨r2.nextID, markerValues i o⟩] := by
      simp only [Redis.stream] at hstream2 ⊢
      rw [stream_insertEntry_same, hstream2]
    have hids : ∀ e ∈ builtEntries i o ps 1 ++ [⟨r2.nextID, markerValues i o⟩], 1 ≤ e.id := by
      intro e he
      rcases List.mem_append.mp he with he | he
      · exact builtEntries_id_ge i o ps 1 e he
      · rw [List.mem_singleton] at he
        subst he
        rw [show (⟨r2.nextID, markerValues i o⟩ : Entry).id = r2.nextID from rfl, hnid]
        exact Nat.le_add_right 1 ps.length
    have hread :
        xreadSince
          (Redis.stream
            ⟨insertEntry r2.streams (getStateStreamName i o) ⟨r2.nextID, markerValues i o⟩,
             r2.nextID + 1, none⟩
            (getStateStreamName i o)) 0
        = builtEntries i o ps 1 ++ [⟨r2.nextID, markerValues i o⟩] := by
      rw [hstream3]
      exact xreadSince_zero _ hids
    have hlast : (builtEntries i o ps 1 ++ [(⟨r2.nextID, markerValues i o⟩ : Entry)]).getLast?
        = some (⟨r2.nextID, markerValues i o⟩ : Entry) := List.getLast?_concat _
    have hproc :
        processMsgs decodeStateEntry okSink
          (builtEntries i o ps 1 ++ [⟨r2.nextID, markerValues i o⟩])
        = (ps.map (fun p => p.1) ++ [⟨"", .jval .null⟩], none) := by
      rw [processMsgs_append decodeStateEntry okSink _ _ _
            (processMsgs_builtEntries i o ps 1 henc),
          processMsgs_cons_sinkOk decodeStateEntry okSink _ [] _
            (decodeStateEntry_marker i o r2.nextID) rfl]
      rfl
    simp only [StreamStateUpdate]
    rw [runTail_step_ctxDone (getStateStreamName i o) decodeStateEntry okSink _ [] 0
      (builtEntries i o ps 1 ++ [⟨r2.nextID, markerValues i o⟩]) [] ⟨r2.nextID, markerValues i o⟩
      (ps.map (fun p => p.1) ++ [⟨"", .jval .null⟩])
      (by rw [hread]) hlast hproc]

/-- Witness for C1 at one concrete push followed by the completion marker:
the tail delivers the pushed record, then the decoded marker, and returns
nil at the cancelled batch boundary. -/
theorem c1_witness :
    StreamStateUpdate
        [⟨fun name k => .ok [xreadSince (Redis.stream
            ⟨[("1-infra-op-state",
               [⟨1, stateValues ⟨1, "infra"⟩ ⟨"op"⟩ ⟨"r1", .jval .null⟩ 5 .null⟩])],
             2, none⟩ name) k], true⟩]
        ⟨1, "infra"⟩ ⟨"op"⟩ okSink
      = ([⟨"r1", .jval .null⟩], .ret none)
    ∧ StreamStateUpdate
        [⟨fun name k => .ok [xreadSince (Redis.stream
            ⟨[("1-infra-op-state",
               [⟨1, stateValues ⟨1, "infra"⟩ ⟨"op"⟩ ⟨"r1", .jval .null⟩ 5 .null⟩,
                ⟨2, markerValues ⟨1, "infra"⟩ ⟨"op"⟩⟩])],
             3, none⟩ name) k], true⟩]
        ⟨1, "infra"⟩ ⟨"op"⟩ okSink
      = ([⟨"r1", .jval .null⟩, ⟨"", .jval .null⟩], .ret none) :=
  ⟨(c1_push_order_delivery ⟨1, "infra"⟩ ⟨"op"⟩ [(⟨"r1", .jval .null⟩, 5)]
      ⟨[("1-infra-op-state",
         [⟨1, stateValues ⟨1, "infra"⟩ ⟨"op"⟩ ⟨"r1", .jval .null⟩ 5 .null⟩])],
       2, none⟩ rfl).1 (List.cons_ne_nil _ _),
   (c1_push_order_delivery ⟨1, "infra"⟩ ⟨"op"⟩ [(⟨"r1", .jval .null⟩, 5)]
      ⟨[("1-infra-op-state",
         [⟨1, stateValues ⟨1, "infra"⟩ ⟨"op"⟩ ⟨"r1", .jval .null⟩ 5 .null⟩])],
       2, none⟩ rfl).2
      ⟨[("1-infra-op-state",
         [⟨1, stateValues ⟨1, "infra"⟩ ⟨"op"⟩ ⟨"r1", .jval .null⟩ 5 .null⟩,
          ⟨2, markerValues ⟨1, "infra"⟩ ⟨"op"⟩⟩])],
       3, none⟩ rfl⟩
